import Mathlib

/-!
Shallow embedding of the core of `bank-vaults/secret-init` (Go), covering:

* the environment store (`env_store.go`): `GetSecretReferences`,
  `LoadProviderSecrets`, `ConvertProviderSecrets`, `checkFromPath`,
  `workaroundForBao`;
* the supervisor's exit-code propagation (`main.go`, daemon branch);
* the Vault provider's sanitizer (`pkg/provider/vault`: `sanitized.append`
  and `LoadConfig`'s passthrough handling);
* the Vault token-file configuration (`pkg/provider/vault/config.go`);
* the Bitwarden loader (`pkg/provider/bitwarden`);
* the daemon secret renewer (`provider/vault/daemon_secret_renewer.go`);
* the AWS Secrets Manager payload parsing (`pkg/provider/aws`).

Pure Go functions become Lean functions; external effects (provider
clients, the filesystem, goroutine interleavings) become explicit
parameters or quantified schedules.  Machine behaviour of the Go standard
library (e.g. `os.ProcessState.ExitCode`) is embedded from its documented
semantics where the repository's code relies on it.
-/

namespace SecretInit

/-- `provider.Secret` (pkg/provider): a resolved key/value pair; `key` is the
destination environment variable name in the child environment. -/
structure Secret where
  key : String
  value : String
  deriving Repr, DecidableEq

/-! ### Go string primitives

Character-list implementations of the `strings` package functions the
embedded code uses, so that every definition evaluates inside the kernel. -/

/-- Go `strings.TrimSpace`: drop leading and trailing whitespace. -/
def goTrimSpace (s : String) : String :=
  ((s.data.dropWhile Char.isWhitespace).reverse.dropWhile Char.isWhitespace).reverse.asString

/-- Splitting a character list on a single separator character, exactly as
Go `strings.Split` does for a one-character separator: `split [] = [[]]`,
and each separator occurrence starts a new group. -/
def splitChars (sep : Char) : List Char → List (List Char)
  | [] => [[]]
  | c :: rest =>
    match splitChars sep rest with
    | [] => [[]]
    | g :: gs => if c = sep then [] :: g :: gs else (c :: g) :: gs

/-- Go `strings.Split(s, ",")`. -/
def goSplitComma (s : String) : List String :=
  (splitChars ',' s.data).map List.asString

/-- Go `strings.HasPrefix`. -/
def goStartsWith (s p : String) : Bool :=
  p.data.isPrefixOf s.data

/-- Go `strings.SplitN(path, "=", 2)` followed by taking `split[0]` and
`split[1]`: the name before the first `=` and the remainder after it.
(When the input has no `=`, the Go code would panic on `split[1]`; the
dispatcher only ever supplies `name=reference` strings, and this model
returns an empty remainder there.) -/
def splitEq (s : String) : String × String :=
  ((s.data.takeWhile (fun c => c ≠ '=')).asString,
   ((s.data.dropWhile (fun c => c ≠ '=')).drop 1).asString)

/-! ## ConvertProviderSecrets (env_store.go)

```go
func (s *EnvStore) ConvertProviderSecrets(providerSecrets []provider.Secret) []string {
    var secretsEnv []string
    for _, secret := range providerSecrets {
        secretsEnv = append(secretsEnv, fmt.Sprintf("%s=%s", secret.Key, secret.Value))
    }
    return secretsEnv
}
```
-/

/-- `EnvStore.ConvertProviderSecrets`: formats every resolved secret as
`key=value`, in input order.  The Go function returns only `[]string`;
it has no error result. -/
def convertProviderSecrets (providerSecrets : List Secret) : List String :=
  providerSecrets.map (fun s => s.key ++ "=" ++ s.value)

/-- The name part of a formatted environment entry: everything before the
first `=` (mirrors how a consumer of `name=value` strings reads the name). -/
def envEntryName (e : String) : String :=
  (e.data.takeWhile (fun c => c ≠ '=')).asString

/-! ## Supervisor exit-code propagation (main.go, daemon branch)

```go
err = cmd.Wait()
if err != nil {
    exitCode := -1
    var exitError *exec.ExitError
    if errors.As(err, &exitError) {
        exitCode = exitError.ExitCode()
    }
    os.Exit(exitCode)
}
os.Exit(cmd.ProcessState.ExitCode())
```

`os.ProcessState.ExitCode` (Go standard library, relied upon here) returns
the exit code of the exited process, or `-1` if the process was terminated
by a signal.  `cmd.Wait` returns `nil` exactly when the child exited with
status 0; it returns an `*exec.ExitError` when the child exited non-zero
or was terminated by a signal; any other error is not an `ExitError`. -/

/-- How the child process terminated, as observable through `cmd.Wait`. -/
inductive ChildOutcome where
  /-- the child exited normally with the given code -/
  | exited (code : Nat)
  /-- the child was terminated by the given signal -/
  | signaled (sig : Nat)
  /-- `cmd.Wait` failed with an error that is not an `*exec.ExitError`,
  so the exit status is unreadable -/
  | unreadable
  deriving Repr, DecidableEq

/-- Whether `cmd.Wait` returns a non-nil error for this outcome. -/
def waitReturnsError : ChildOutcome → Bool
  | .exited 0 => false
  | .exited _ => true
  | .signaled _ => true
  | .unreadable => true

/-- Whether the error returned by `cmd.Wait` is an `*exec.ExitError`. -/
def waitErrorIsExitError : ChildOutcome → Bool
  | .exited _ => true
  | .signaled _ => true
  | .unreadable => false

/-- Go `os.ProcessState.ExitCode` / `exec.ExitError.ExitCode`: the exit code
for a normally exited process, `-1` for a signal-terminated process. -/
def processStateExitCode : ChildOutcome → Int
  | .exited c => Int.ofNat c
  | .signaled _ => -1
  | .unreadable => -1

/-- The supervisor's own exit code in daemon mode, mirroring the
`cmd.Wait` error handling of `main.go`. -/
def supervisorExitCode (o : ChildOutcome) : Int :=
  if waitReturnsError o then
    if waitErrorIsExitError o then processStateExitCode o else -1
  else
    processStateExitCode o

/-! ## Vault configuration (pkg/provider/vault/config.go)

The sanitize map (`sanitizeEnvmap`) classifies provider-internal keys into
login-class (`login: true`) and operational (`login: false`).  `LoadConfig`
resolves the token (direct, token file, or role/path/auth-method trio) and
deletes every trimmed non-empty `VAULT_PASSTHROUGH` name (plus
`VAULT_TOKEN` in a login scenario) from the sanitize map. -/

/-- `sanitizeEnvmap` from `pkg/provider/vault/config.go`: key ↦ login-class
flag. -/
def sanitizeEnvmap : List (String × Bool) :=
  [("VAULT_TOKEN", true),
   ("VAULT_ADDR", true),
   ("VAULT_AGENT_ADDR", true),
   ("VAULT_CACERT", true),
   ("VAULT_CAPATH", true),
   ("VAULT_CLIENT_CERT", true),
   ("VAULT_CLIENT_KEY", true),
   ("VAULT_CLIENT_TIMEOUT", true),
   ("VAULT_SRV_LOOKUP", true),
   ("VAULT_SKIP_VERIFY", true),
   ("VAULT_NAMESPACE", true),
   ("VAULT_TLS_SERVER_NAME", true),
   ("VAULT_WRAP_TTL", true),
   ("VAULT_MFA", true),
   ("VAULT_MAX_RETRIES", true),
   ("VAULT_CLUSTER_ADDR", false),
   ("VAULT_REDIRECT_ADDR", false),
   ("VAULT_CLI_NO_COLOR", false),
   ("VAULT_RATE_LIMIT", false),
   ("VAULT_ROLE", false),
   ("VAULT_PATH", false),
   ("VAULT_AUTH_METHOD", false),
   ("VAULT_TRANSIT_KEY_ID", false),
   ("VAULT_TRANSIT_PATH", false),
   ("VAULT_TRANSIT_BATCH_SIZE", false),
   ("VAULT_IGNORE_MISSING_SECRETS", false),
   ("VAULT_PASSTHROUGH", false),
   ("VAULT_LOG_LEVEL", false),
   ("VAULT_REVOKE_TOKEN", false),
   ("VAULT_FROM_PATH", false)]

/-- The passthrough names `LoadConfig` deletes from the sanitize map: every
entry of `strings.Split(os.Getenv(passthroughEnv), ",")` — plus
`VAULT_TOKEN` in a login scenario — that is non-empty after
`strings.TrimSpace`. -/
def trimmedPassthrough (passthroughValue : String) (isLogin : Bool) : List String :=
  ((goSplitComma passthroughValue) ++ (if isLogin then ["VAULT_TOKEN"] else [])).filterMap
    (fun v => let t := goTrimSpace v; if t = "" then none else some t)

/-- The trimmed names taken from `VAULT_PASSTHROUGH` alone (without the
login-scenario `VAULT_TOKEN` addition). -/
def userPassthroughNames (passthroughValue : String) : List String :=
  (goSplitComma passthroughValue).filterMap
    (fun v => let t := goTrimSpace v; if t = "" then none else some t)

/-- The sanitize map after `LoadConfig`'s passthrough deletion loop. -/
def effectiveSanitizeMap (passthroughValue : String) (isLogin : Bool) : List (String × Bool) :=
  sanitizeEnvmap.filter (fun kv => !((trimmedPassthrough passthroughValue isLogin).contains kv.1))

/-- The token-related fields of `vault.Config` produced by `LoadConfig`. -/
structure VaultAuthConfig where
  isLogin : Bool
  token : String
  tokenFile : String
  role : String
  authPath : String
  authMethod : String
  deriving Repr, DecidableEq

/-- The authentication part of `vault.LoadConfig`
(`pkg/provider/vault/config.go` lines 117–154): the environment is the
`env` snapshot, the filesystem is the `readFile` function.  When
`VAULT_TOKEN_FILE` is set the named file is read and its raw content
becomes the token; otherwise the role/auth-path/auth-method trio is
required. -/
def loadConfigAuth (env : String → Option String)
    (readFile : String → Except String String) : Except String VaultAuthConfig :=
  let vaultToken := (env "VAULT_TOKEN").getD ""
  let isLogin := vaultToken == "vault:login"
  match env "VAULT_TOKEN_FILE" with
  | some tokenFile =>
    match readFile tokenFile with
    | .error e => .error ("failed to read token file " ++ tokenFile ++ ": " ++ e)
    | .ok content =>
      .ok { isLogin := isLogin, token := content, tokenFile := tokenFile,
            role := "", authPath := "", authMethod := "" }
  | none =>
    match env "VAULT_ROLE" with
    | none => .error "incomplete authentication configuration: VAULT_ROLE missing"
    | some role =>
      match env "VAULT_PATH" with
      | none => .error "incomplete authentication configuration: VAULT_PATH missing"
      | some authPath =>
        match env "VAULT_AUTH_METHOD" with
        | none => .error "incomplete authentication configuration: VAULT_AUTH_METHOD missing"
        | some authMethod =>
          .ok { isLogin := isLogin, token := vaultToken, tokenFile := "",
                role := role, authPath := authPath, authMethod := authMethod }

/-! ## Vault sanitizer (pkg/provider/vault, `sanitized.append`)

```go
func (s *sanitized) append(key string, value string) {
    envType, ok := sanitizeEnvmap[key]
    if !ok || (s.login && envType.login) {
        s.secrets = append(s.secrets, provider.Secret{Key: key, Value: value})
    }
}
```
-/

/-- `sanitized.append`: retain the key only if it is absent from the
(post-passthrough) sanitize map, or this is a login scenario and the key is
login-class. -/
def sanitizedAppend (m : List (String × Bool)) (login : Bool)
    (acc : List Secret) (key value : String) : List Secret :=
  match m.lookup key with
  | none => acc ++ [⟨key, value⟩]
  | some loginClass => if login && loginClass then acc ++ [⟨key, value⟩] else acc

/-- The secret list produced by running `sanitized.append` over every
(key, value) pair the injector emits, in order. -/
def runInjections (m : List (String × Bool)) (login : Bool)
    (kvs : List (String × String)) : List Secret :=
  kvs.foldl (fun acc kv => sanitizedAppend m login acc kv.1 kv.2) []

/-! ## Loader registry (env_store.go `factories`, pkg/provider validators) -/

/-- `provider.Factory` (pkg/provider): provider id and reference validator.
(The `Create` field is abstracted separately where a claim needs it.) -/
structure Factory where
  providerType : String
  validator : String → Bool

/-- The remainder of `l` after the first occurrence of `needle`, if any. -/
def afterFirst (needle : List Char) : List Char → Option (List Char)
  | [] => if needle.isEmpty then some [] else none
  | c :: rest =>
    if needle.isPrefixOf (c :: rest) then some ((c :: rest).drop needle.length)
    else afterFirst needle rest

/-- Go `regexp.MustCompile("(" ++ p ++ ")(.*)#(.*)").MatchString`: some
line of the value contains an occurrence of `p` with a `#` after it on the
same line (`.` does not cross newlines in Go regexp). -/
def matchesSelector (p : String) (s : String) : Bool :=
  (splitChars '\n' s.data).any (fun line =>
    match afterFirst p.data line with
    | some rem => rem.contains '#'
    | none => false)

/-- `file.Valid`: `strings.HasPrefix(envValue, "file:")`. -/
def fileValid (s : String) : Bool := goStartsWith s "file:"

/-- `vault.Valid`: regexp `(vault:)(.*)#(.*)`. -/
def vaultValid (s : String) : Bool := matchesSelector "vault:" s

/-- `bao.Valid`: regexp `(bao:)(.*)#(.*)`. -/
def baoValid (s : String) : Bool := matchesSelector "bao:" s

/-- `aws.Valid`: prefix `arn:aws:secretsmanager:` or `arn:aws:ssm:`. -/
def awsValid (s : String) : Bool :=
  goStartsWith s "arn:aws:secretsmanager:" || goStartsWith s "arn:aws:ssm:"

/-- `gcp.Valid`: prefix `gcp:secretmanager:`. -/
def gcpValid (s : String) : Bool := goStartsWith s "gcp:secretmanager:"

/-- Modelled from the spec: the Azure provider's `Valid` function is not in
src/ (only its registration in the `factories` table is); §3 gives its
reference pattern as `azure:keyvault:<name>[/<version>]`, so validation is
the prefix test, as for the other prefix-based providers. -/
def azureValid (s : String) : Bool := goStartsWith s "azure:keyvault:"

/-- The `factories` table of `env_store.go`, in declaration order. -/
def factories : List Factory :=
  [⟨"file", fileValid⟩,
   ⟨"vault", vaultValid⟩,
   ⟨"bao", baoValid⟩,
   ⟨"aws", awsValid⟩,
   ⟨"gcp", gcpValid⟩,
   ⟨"azure", azureValid⟩]

/-! ## EnvStore.GetSecretReferences (env_store.go)

```go
secretReferences := make(map[string][]string)
for envKey, envPath := range s.data {
    for _, factory := range factories {
        if factory.Validator(envPath) {
            secretReferences[factory.ProviderType] =
                append(secretReferences[factory.ProviderType], fmt.Sprintf("%s=%s", envKey, envPath))
        }
    }
}
checkFromPath(s.data, &secretReferences)
```
-/

/-- The `secretReferences` map under construction: provider id to its
reference group; `none` models a key that is absent from the Go map. -/
def RefMap := String → Option (List String)

/-- `append` into a Go `map[string][]string` entry (appending to a missing
key starts from the empty slice). -/
def addRef (m : RefMap) (k v : String) : RefMap :=
  fun k' => if k' = k then some ((m k).getD [] ++ [v]) else m k'

/-- Overwrite one group (Go `secretReferences[k] = g`). -/
def setGroup (m : RefMap) (k : String) (g : List String) : RefMap :=
  fun k' => if k' = k then some g else m k'

/-- The inner factory loop of `GetSecretReferences` for one environment
entry. -/
def classifyEntry (fs : List Factory) (name value : String) (m : RefMap) : RefMap :=
  fs.foldl
    (fun m f => if f.validator value then addRef m f.providerType (name ++ "=" ++ value) else m)
    m

/-- `checkFromPath`: when `VAULT_FROM_PATH` / `BAO_FROM_PATH` is present in
the environment and the corresponding provider collected no direct
references, insert an empty group so the dispatcher still instantiates the
provider. -/
def checkFromPath (environ : List (String × String)) (m : RefMap) : RefMap :=
  let m1 :=
    if (m "vault").isNone && (environ.lookup "VAULT_FROM_PATH").isSome then
      setGroup m "vault" []
    else m
  if (m1 "bao").isNone && (environ.lookup "BAO_FROM_PATH").isSome then
    setGroup m1 "bao" []
  else m1

/-- `EnvStore.GetSecretReferences` over the environment snapshot `data`
(one `(name, value)` per environment entry; the Go map's iteration order
is whatever order `data` lists them in). -/
def getSecretReferences (data : List (String × String)) : RefMap :=
  checkFromPath data
    (data.foldl (fun m nv => classifyEntry factories nv.1 nv.2 m) (fun _ => none))

/-- Whether some factory of type `p` accepts `value` (`fs.any` mirrors the
inner loop's membership test seen from one group). -/
def acceptedBy (fs : List Factory) (p value : String) : Bool :=
  fs.any (fun f => f.providerType == p && f.validator value)

/-! ## EnvStore.LoadProviderSecrets (env_store.go, first revision)

```go
errCh := make(chan error, len(factories))
for providerName, paths := range providerPaths {
    wg.Add(1)
    go func(providerName string, paths []string, errCh chan<- error) {
        defer wg.Done()
        for _, factory := range factories {
            if factory.ProviderType == providerName {
                provider, err := factory.Create(ctx, s.appConfig)
                if err != nil { errCh <- fmt.Errorf("failed to create provider %s: %w", ...); return }
                secrets, err := provider.LoadSecrets(ctx, paths)
                if err != nil { errCh <- fmt.Errorf("failed to load secrets for provider %s: %w", ...); return }
                mu.Lock(); providerSecrets = append(providerSecrets, secrets...); mu.Unlock()
            }
        }
    }(providerName, paths, errCh)
}
wg.Wait(); close(errCh)
var errs error
for e := range errCh { errs = errors.Join(errs, e) }
if errs != nil { return nil, errs }
return providerSecrets, nil
```

The external side of each worker is abstracted by `create`
(`factory.Create`) and `load` (`provider.LoadSecrets`); the goroutine
interleaving is abstracted by quantifying over `order`, the order in which
the map is iterated and worker effects land in the shared sink and error
channel. -/

/-- A worker's contribution: an error published to `errCh`, or secrets
appended to the shared sink. -/
inductive WorkerOut where
  | err (msg : String)
  | secrets (ss : List Secret)

/-- The worker's loop over the factory table. -/
def workerLoop (create : String → Except String Unit)
    (load : String → List String → Except String (List Secret))
    (providerName : String) (paths : List String) :
    List Factory → List Secret → WorkerOut
  | [], acc => .secrets acc
  | f :: rest, acc =>
    if f.providerType = providerName then
      match create providerName with
      | .error e => .err ("failed to create provider " ++ providerName ++ ": " ++ e)
      | .ok _ =>
        match load providerName paths with
        | .error e => .err ("failed to load secrets for provider " ++ providerName ++ ": " ++ e)
        | .ok ss => workerLoop create load providerName paths rest (acc ++ ss)
    else
      workerLoop create load providerName paths rest acc

/-- One dispatched worker. -/
def runWorker (create : String → Except String Unit)
    (load : String → List String → Except String (List Secret))
    (providerName : String) (paths : List String) : WorkerOut :=
  workerLoop create load providerName paths factories []

/-- Draining the error channel after `wg.Wait`: the errors every worker
published, in completion order. -/
def collectErrors (outs : List WorkerOut) : List String :=
  outs.filterMap (fun o => match o with | .err m => some m | .secrets _ => none)

/-- The shared `providerSecrets` sink: the secrets every successful worker
appended, in completion order. -/
def collectSecrets (outs : List WorkerOut) : List Secret :=
  outs.foldl (fun acc o => match o with | .secrets ss => acc ++ ss | .err _ => acc) []

/-- `EnvStore.LoadProviderSecrets`: every scheduled worker runs to
completion (`wg.Wait` precedes reading `errCh`), the published errors are
joined, and on any error the secret result is `nil`.  The Go return pair
`([]provider.Secret, error)` becomes `(Option (List Secret), List String)`
with `errors.Join` represented by the list of joined messages. -/
def loadProviderSecrets (create : String → Except String Unit)
    (load : String → List String → Except String (List Secret))
    (order : List (String × List String)) : Option (List Secret) × List String :=
  match collectErrors (order.map (fun nv => runWorker create load nv.1 nv.2)) with
  | [] => (some (collectSecrets (order.map (fun nv => runWorker create load nv.1 nv.2))), [])
  | es => (none, es)

/-! ## Vault-before-Bao sequencing (env_store.go, later revision)

```go
if _, ok := providerPaths["vault"]; ok {
    vaultSecrets, err := s.workaroundForBao(ctx, providerPaths["vault"])
    if err != nil { return nil, err }
    providerSecrets = append(providerSecrets, vaultSecrets...)
    delete(providerPaths, "vault")
}
// ... concurrent fan-out over the remaining providers ...
```

`workaroundForBao` invokes the Vault provider's `LoadSecrets` synchronously,
so its load both starts and finishes before the fan-out loop spawns any
goroutine.  The fan-out phase is abstracted as any interleaving of the
remaining workers' `start`/`finish` events. -/

/-- A load event of one provider's `LoadSecrets` call. -/
inductive LoadEv where
  | start (p : String)
  | finish (p : String)
  deriving Repr, DecidableEq

/-- The working mapping after `delete(providerPaths, "vault")`. -/
def remainingAfterVault (providerPaths : List (String × List String)) :
    List (String × List String) :=
  providerPaths.filter (fun nv => nv.1 ≠ "vault")

/-- `σ` is a possible event order of the concurrent fan-out over the
providers `ps`: every event belongs to a scheduled provider, and each
scheduled provider starts exactly once and finishes exactly once, after its
start. -/
def IsInterleaving (ps : List String) (σ : List LoadEv) : Prop :=
  (∀ ev ∈ σ, ∃ q ∈ ps, ev = .start q ∨ ev = .finish q) ∧
  (∀ q ∈ ps, σ.count (.start q) = 1 ∧ σ.count (.finish q) = 1 ∧
    σ.indexOf (.start q) < σ.indexOf (.finish q))

/-- The overall event order of `LoadProviderSecrets`: the serial Vault
phase (when a Vault group is present) followed by the fan-out events. -/
def dispatchTrace (providerPaths : List (String × List String)) (σ : List LoadEv) :
    List LoadEv :=
  (if (providerPaths.lookup "vault").isSome then [.start "vault", .finish "vault"] else []) ++ σ

/-! ## Daemon secret renewer (provider/vault/daemon_secret_renewer.go)

```go
go func() {
    defer watcher.Stop()
    for {
        select {
        case renewOutput := <-watcher.RenewCh():
            r.logger.Info("secret renewed", ...)
        case doneError := <-watcher.DoneCh():
            if !secret.Renewable {
                leaseDuration := time.Duration(secret.LeaseDuration) * time.Second
                time.Sleep(leaseDuration)
                ...
            }
            r.sigs <- syscall.SIGTERM
            timeout := <-time.After(10 * time.Second)
            r.sigs <- syscall.SIGKILL
            return
        }
    }
}()
```
-/

/-- An event delivered to the renewer goroutine's select loop: a renewal
notification from `watcher.RenewCh()` or a done notification from
`watcher.DoneCh()`. -/
inductive WatcherEvent where
  | renewed (leaseDuration : Nat)
  | doneEv (hasError : Bool)
  deriving Repr, DecidableEq

/-- An observable action of the renewer goroutine. -/
inductive RenewerAction where
  /-- log "secret renewed" with the renewal's lease duration -/
  | logRenewed (leaseDuration : Nat)
  /-- `time.Sleep` for the given number of seconds -/
  | sleepFor (seconds : Nat)
  /-- send `SIGTERM` into the supervisor's signal channel (toward the child) -/
  | sendSigterm
  /-- block on `time.After` for the given number of seconds -/
  | waitSeconds (seconds : Nat)
  /-- send `SIGKILL` into the supervisor's signal channel -/
  | sendSigkill
  /-- return from the goroutine, running the deferred `watcher.Stop()` -/
  | stopWatcher
  deriving Repr, DecidableEq

/-- The renewer goroutine of `daemonSecretRenewer.Renew`, as a function
from the stream of watcher events to the ordered list of actions it
performs.  `renewable` and `leaseDuration` are the registered secret's
fields.  A renew event is logged and the loop continues; on the first done
event a non-renewable secret first sleeps for its original lease duration,
then SIGTERM is sent, a hard 10-second timer elapses, SIGKILL is sent, and
the goroutine returns — events after the first done event are never read. -/
def renewLoop (renewable : Bool) (leaseDuration : Nat) :
    List WatcherEvent → List RenewerAction
  | [] => []
  | .renewed d :: rest => .logRenewed d :: renewLoop renewable leaseDuration rest
  | .doneEv _ :: _ =>
    (if renewable then [] else [.sleepFor leaseDuration]) ++
      [.sendSigterm, .waitSeconds 10, .sendSigkill, .stopWatcher]

/-! ## AWS Secrets Manager payload parsing (pkg/provider/aws) -/

/-- A JSON value as Go's `encoding/json` decodes it into `interface{}`. -/
inductive Json where
  | jnull
  | jbool (b : Bool)
  | jnum (n : Int)
  | jstr (s : String)
  | jarr (elems : List Json)
  | jobj (fields : List (String × Json))

/-- Escaping of one character inside a Go JSON string literal (quote and
backslash; Go additionally escapes control and HTML characters, which the
embedded code never feeds it). -/
def goJsonEscapeChar (c : Char) : String :=
  if c = '"' then "\\\"" else if c = '\\' then "\\\\" else String.singleton c

/-- The body of a Go JSON string literal. -/
def goJsonEscape (s : String) : String :=
  String.join (s.data.map goJsonEscapeChar)

mutual

/-- Go `json.Marshal` of a decoded JSON value. -/
def goJsonEncode : Json → String
  | .jnull => "null"
  | .jbool true => "true"
  | .jbool false => "false"
  | .jnum n => toString n
  | .jstr s => "\"" ++ goJsonEscape s ++ "\""
  | .jarr es => "[" ++ String.intercalate "," (goJsonEncodeList es) ++ "]"
  | .jobj fs => "\x7b" ++ String.intercalate "," (goJsonEncodeFields fs) ++ "\x7d"

/-- Encodings of the elements of a JSON array. -/
def goJsonEncodeList : List Json → List String
  | [] => []
  | j :: rest => goJsonEncode j :: goJsonEncodeList rest

/-- Encodings of the fields of a JSON object. -/
def goJsonEncodeFields : List (String × Json) → List String
  | [] => []
  | (k, v) :: rest =>
    ("\"" ++ goJsonEscape k ++ "\":" ++ goJsonEncode v) :: goJsonEncodeFields rest

end

/-- Insert-or-replace into an association list (Go map assignment). -/
def upsert : List (String × Json) → String → Json → List (String × Json)
  | [], k, v => [(k, v)]
  | (k', v') :: rest, k, v =>
    if k' = k then (k', v) :: rest else (k', v') :: upsert rest k v

/-- The key/value pairs of a decoded JSON object as a Go map: duplicate
keys collapse, the later occurrence winning. -/
def dedupKeys (fs : List (String × Json)) : List (String × Json) :=
  fs.foldl (fun m kv => upsert m kv.1 kv.2) []

/-- Go `json.Unmarshal` into `map[string]interface{}`: JSON `null` yields
a nil map and a JSON object yields its fields; every other JSON value is a
type-mismatch error. -/
def unmarshalIntoMap : Json → Option (List (String × Json))
  | .jnull => some []
  | .jobj fs => some (dedupKeys fs)
  | _ => none

/-- `parseSecretValueFromSM` (pkg/provider/aws, part of the Secrets
Manager path of `LoadSecrets`).  `secretBytes` is the fetched payload;
`parsed` is `some j` when `json.Valid(secretBytes)` holds and `j` is its
decoding, `none` otherwise.

```go
if !json.Valid(secretBytes) { return secretBytes, nil }
var secretValue map[string]interface{}
err := json.Unmarshal(secretBytes, &secretValue)
if err != nil { return nil, fmt.Errorf(...) }
if len(secretValue) == 1 {
    for _, value := range secretValue { return json.Marshal(value) }
}
return secretBytes, nil
```
-/
def parseSecretValueFromSM (secretBytes : String) (parsed : Option Json) :
    Except String String :=
  match parsed with
  | none => .ok secretBytes
  | some j =>
    match unmarshalIntoMap j with
    | none => .error "failed to unmarshal secret from AWS Secrets Manager"
    | some secretValue =>
      match secretValue with
      | [(_, v)] => .ok (goJsonEncode v)
      | _ => .ok secretBytes

/-! ## Bitwarden loader (pkg/provider/bitwarden) -/

/-- The record the Bitwarden SDK returns for one secret: its stored key
and value. -/
structure BwRemoteSecret where
  key : String
  value : String
  deriving Repr, DecidableEq

/-- One iteration of the `bitwarden.Provider.LoadSecrets` loop on the path
`name=secretID`: the organization-id sentinel yields the whole JSON bundle
under `name`; any other id is fetched and yields the *remote* secret's own
key (`secret.Key`) and value. -/
def bitwardenStep (orgID : String)
    (getSecret : String → Except String BwRemoteSecret)
    (orgBundleJSON : Except String String) (path : String) : Except String Secret :=
  let originalKey := (splitEq path).1
  let secretID := (splitEq path).2
  if secretID = orgID then
    match orgBundleJSON with
    | .error e => .error ("failed to get secrets by IDs: " ++ e)
    | .ok js => .ok ⟨originalKey, js⟩
  else
    match getSecret secretID with
    | .error e => .error ("failed to get secret " ++ secretID ++ ": " ++ e)
    | .ok r => .ok ⟨r.key, r.value⟩

/-- `bitwarden.Provider.LoadSecrets`.  The SDK is abstracted by
`getSecret` (`Secrets().Get`) and `orgBundleJSON` (the JSON bundle built
by `getSecretsByIDs`).  Paths are processed in order; the first failing
path aborts the load. -/
def bitwardenLoadSecrets (orgID : String)
    (getSecret : String → Except String BwRemoteSecret)
    (orgBundleJSON : Except String String) :
    List String → Except String (List Secret)
  | [] => .ok []
  | path :: rest =>
    match bitwardenStep orgID getSecret orgBundleJSON path with
    | .error e => .error e
    | .ok s =>
      match bitwardenLoadSecrets orgID getSecret orgBundleJSON rest with
      | .error e => .error e
      | .ok ss => .ok (s :: ss)

/-- A concrete Bitwarden SDK for exercising `bitwardenLoadSecrets`: one
stored secret whose own key differs from the requesting environment
variable's name. -/
def bwGetExample : String → Except String BwRemoteSecret := fun sid =>
  if sid = "bitwarden:7c302b55-8bb0-4df0-b2f5-4d0a12f0e203" then
    .ok ⟨"OTHER_KEY", "baz"⟩
  else
    .error "secret not found"

/-- A concrete environment snapshot for exercising `loadConfigAuth`:
only `VAULT_TOKEN_FILE` is set. -/
def tokenFileEnvExample : String → Option String := fun n =>
  if n = "VAULT_TOKEN_FILE" then some "/vault/.vault-token" else none

/-- A concrete filesystem for exercising `loadConfigAuth`: the token file
holds `"root"` followed by a trailing newline, as `vault-agent` writes it. -/
def tokenFileReadExample : String → Except String String := fun p =>
  if p = "/vault/.vault-token" then .ok "root\n" else .error "no such file or directory"

end SecretInit

namespace SecretInit

/-- Claim C1 as stated asserts that `ConvertProviderSecrets` reports a
duplicate-key error instead of emitting a destination key twice.  The code
performs no duplicate detection (it cannot even return an error): two
secrets sharing the key `K` produce two `K=...` entries. -/
theorem convertProviderSecrets_dup_counterexample :
    convertProviderSecrets [⟨"K", "a"⟩, ⟨"K", "b"⟩] = ["K=a", "K=b"] ∧
    ((convertProviderSecrets [⟨"K", "a"⟩, ⟨"K", "b"⟩]).filter
      (fun e => envEntryName e = "K")).length = 2 := by
  constructor
  · rfl
  · decide

/-- C1 (amended): `ConvertProviderSecrets` emits exactly one `key=value`
entry per input secret, in order, with no duplicate-key detection: every
input secret's formatted entry is present, and the output length equals the
input length, so a destination key shared by two secrets from different
providers appears twice rather than raising an error. -/
theorem convertProviderSecrets_emits_all (ss : List Secret) :
    (convertProviderSecrets ss).length = ss.length ∧
    ∀ s ∈ ss, (s.key ++ "=" ++ s.value) ∈ convertProviderSecrets ss := by
  refine ⟨List.length_map _ _, ?_⟩
  intro s hs
  exact List.mem_map.mpr ⟨s, hs, rfl⟩

/-- Witness for `convertProviderSecrets_emits_all` at a concrete input. -/
theorem convertProviderSecrets_emits_all_witness :
    (convertProviderSecrets [⟨"K", "a"⟩, ⟨"K", "b"⟩]).length = 2 ∧
    ("K" ++ "=" ++ "a") ∈ convertProviderSecrets [⟨"K", "a"⟩, ⟨"K", "b"⟩] := by
  refine ⟨(convertProviderSecrets_emits_all [⟨"K", "a"⟩, ⟨"K", "b"⟩]).1, ?_⟩
  exact (convertProviderSecrets_emits_all [⟨"K", "a"⟩, ⟨"K", "b"⟩]).2 ⟨"K", "a"⟩ (by simp)

/-- Claim C2 as stated asserts that a child killed by signal `S` makes the
supervisor exit with `128 + S`.  The code exits with
`exec.ExitError.ExitCode()`, which is `-1` for a signal-terminated child:
for `S = 15` the supervisor exits with `-1`, not `143`. -/
theorem supervisorExitCode_signal_counterexample :
    supervisorExitCode (.signaled 15) = -1 ∧ (128 + 15 : Int) = 143 ∧
    supervisorExitCode (.signaled 15) ≠ 143 := by
  refine ⟨rfl, rfl, ?_⟩
  decide

/-- C2 (amended): in daemon mode the supervisor exits with the child's exit
code `C` when the child exited normally, and with `-1` both when the child
was terminated by a signal (Go's `ExitCode` yields `-1` there) and when the
exit status is unreadable; `128 + signal` is never produced. -/
theorem supervisorExitCode_spec (o : ChildOutcome) :
    (∀ c, o = .exited c → supervisorExitCode o = Int.ofNat c) ∧
    (∀ s, o = .signaled s → supervisorExitCode o = -1) ∧
    (o = .unreadable → supervisorExitCode o = -1) := by
  refine ⟨?_, ?_, ?_⟩
  · rintro c rfl
    cases c <;> rfl
  · rintro s rfl
    rfl
  · rintro rfl
    rfl

/-- Witness for `supervisorExitCode_spec` at concrete outcomes. -/
theorem supervisorExitCode_spec_witness :
    supervisorExitCode (.exited 7) = Int.ofNat 7 ∧
    supervisorExitCode (.signaled 9) = -1 ∧
    supervisorExitCode .unreadable = -1 :=
  ⟨(supervisorExitCode_spec (.exited 7)).1 7 rfl,
   (supervisorExitCode_spec (.signaled 9)).2.1 9 rfl,
   (supervisorExitCode_spec .unreadable).2.2 rfl⟩

/-! ### Lemmas about the sanitizer fold -/

/-- Membership characterization of a single `sanitized.append` step. -/
theorem mem_sanitizedAppend (m : List (String × Bool)) (login : Bool)
    (acc : List Secret) (k v : String) (x : Secret) :
    x ∈ sanitizedAppend m login acc k v ↔
      x ∈ acc ∨ (x = ⟨k, v⟩ ∧
        (m.lookup k = none ∨ (login = true ∧ m.lookup k = some true))) := by
  rcases hlk : m.lookup k with _ | b
  · simp [sanitizedAppend, hlk]
  · by_cases hb : (login && b) = true
    · rcases Bool.and_eq_true_iff.mp hb with ⟨hl, hbt⟩
      subst hbt
      simp [sanitizedAppend, hlk, hl]
    · have hb' : (login && b) = false := eq_false_of_ne_true hb
      simp only [sanitizedAppend, hlk, hb', Bool.false_eq_true, if_false]
      constructor
      · exact .inl
      · rintro (h | ⟨rfl, h | ⟨hl, hsome⟩⟩)
        · exact h
        · exact absurd h (by simp)
        · have : b = true := Option.some_inj.mp hsome
          subst this
          rw [hl] at hb'
          simp at hb'

/-- `sanitized.append` never removes an already-collected secret. -/
theorem mem_sanitizer_foldl_of_mem_acc (m : List (String × Bool)) (login : Bool)
    (kvs : List (String × String)) (acc : List Secret) (x : Secret) (hx : x ∈ acc) :
    x ∈ kvs.foldl (fun acc kv => sanitizedAppend m login acc kv.1 kv.2) acc := by
  induction kvs generalizing acc with
  | nil => exact hx
  | cons kv rest ih =>
    exact ih _ ((mem_sanitizedAppend m login acc kv.1 kv.2 x).mpr (.inl hx))

/-- Any secret in the sanitizer fold's output comes from the accumulator or
from an injected pair that passed the filter condition. -/
theorem mem_sanitizer_foldl_cases (m : List (String × Bool)) (login : Bool)
    (kvs : List (String × String)) :
    ∀ (acc : List Secret) (x : Secret),
      x ∈ kvs.foldl (fun acc kv => sanitizedAppend m login acc kv.1 kv.2) acc →
      x ∈ acc ∨ ((x.key, x.value) ∈ kvs ∧
        (m.lookup x.key = none ∨ (login = true ∧ m.lookup x.key = some true))) := by
  induction kvs with
  | nil => exact fun _ _ h => .inl h
  | cons kv rest ih =>
    intro acc x h
    rcases ih _ x h with h' | ⟨hmem, hcond⟩
    · rcases (mem_sanitizedAppend m login acc kv.1 kv.2 x).mp h' with ha | ⟨hx, hcond⟩
      · exact .inl ha
      · subst hx
        exact .inr ⟨List.mem_cons_self _ _, hcond⟩
    · exact .inr ⟨List.mem_cons_of_mem _ hmem, hcond⟩

/-- An injected pair whose key the (post-passthrough) sanitize map does not
contain is always appended. -/
theorem sanitizer_retains_unlisted (m : List (String × Bool)) (login : Bool)
    (kvs : List (String × String)) (k v : String) (hk : m.lookup k = none) :
    ∀ acc : List Secret, (k, v) ∈ kvs →
      (⟨k, v⟩ : Secret) ∈ kvs.foldl (fun acc kv => sanitizedAppend m login acc kv.1 kv.2) acc := by
  induction kvs with
  | nil => intro _ h; exact absurd h (List.not_mem_nil _)
  | cons kv rest ih =>
    intro acc h
    rcases List.mem_cons.mp h with heq | htail
    · subst heq
      refine mem_sanitizer_foldl_of_mem_acc m login rest _ _ ?_
      exact (mem_sanitizedAppend m login acc k v _).mpr (.inr ⟨rfl, .inl hk⟩)
    · exact ih _ htail

/-- Looking a key up in an association list filtered by a predicate on the
keys. -/
theorem lookup_filter_keyPred (l : List (String × Bool)) (q : String → Bool) (k : String) :
    (l.filter (fun kv => q kv.1)).lookup k = if q k then l.lookup k else none := by
  induction l with
  | nil => simp [List.lookup]
  | cons kv rest ih =>
    rcases kv with ⟨k', b⟩
    by_cases hqk : q k'
    · rw [show ((⟨k', b⟩ :: rest).filter (fun kv => q kv.1)) =
          ⟨k', b⟩ :: rest.filter (fun kv => q kv.1) from by simp [List.filter, hqk]]
      by_cases hk : k = k'
      · subst hk
        simp [List.lookup, hqk]
      · have hbeq : (k == k') = false := beq_eq_false_iff_ne.mpr hk
        simp only [List.lookup, hbeq]
        exact ih
    · rw [show ((⟨k', b⟩ :: rest).filter (fun kv => q kv.1)) =
          rest.filter (fun kv => q kv.1) from by simp [List.filter, hqk]]
      by_cases hk : k = k'
      · subst hk
        rw [ih]
        simp [hqk]
      · have hbeq : (k == k') = false := beq_eq_false_iff_ne.mpr hk
        rw [ih]
        simp only [List.lookup, hbeq]

/-- Membership in the deleted-passthrough name set. -/
theorem mem_trimmedPassthrough (pv : String) (lg : Bool) (k : String) :
    k ∈ trimmedPassthrough pv lg ↔
      k ∈ userPassthroughNames pv ∨ (lg = true ∧ k = "VAULT_TOKEN") := by
  unfold trimmedPassthrough userPassthroughNames
  rw [List.filterMap_append]
  rw [List.mem_append]
  constructor
  · rintro (h | h)
    · exact .inl h
    · cases lg with
      | false => simp at h
      | true =>
        refine .inr ⟨rfl, ?_⟩
        simp only [if_true] at h
        have : (["VAULT_TOKEN"].filterMap
            (fun v => let t := goTrimSpace v; if t = "" then none else some t)) =
            ["VAULT_TOKEN"] := by decide
        rw [this] at h
        exact List.mem_singleton.mp h
  · rintro (h | ⟨hlg, hk⟩)
    · exact .inl h
    · subst hlg; subst hk
      refine .inr ?_
      simp only [if_true]
      have : (["VAULT_TOKEN"].filterMap
          (fun v => let t := goTrimSpace v; if t = "" then none else some t)) =
          ["VAULT_TOKEN"] := by decide
      rw [this]
      exact List.mem_singleton.mpr rfl

/-- C6: for every key in the Vault sanitize map, the secret list built by
`sanitized.append` (over the sanitize map left by `LoadConfig`) contains
that key only if the `vault:login` sentinel is active and the key is
login-class, or the key is named in `VAULT_PASSTHROUGH` (and so was deleted
from the map before filtering); every appended key absent from the sanitize
map is always retained. -/
theorem vaultSanitizer_spec (pv : String) (lg : Bool) (kvs : List (String × String)) :
    (∀ k cls v, sanitizeEnvmap.lookup k = some cls →
        (⟨k, v⟩ : Secret) ∈ runInjections (effectiveSanitizeMap pv lg) lg kvs →
        (lg = true ∧ cls = true) ∨ k ∈ userPassthroughNames pv) ∧
    (∀ k v, sanitizeEnvmap.lookup k = none → (k, v) ∈ kvs →
        (⟨k, v⟩ : Secret) ∈ runInjections (effectiveSanitizeMap pv lg) lg kvs) := by
  have heff : ∀ k, (effectiveSanitizeMap pv lg).lookup k =
      if !((trimmedPassthrough pv lg).contains k) then sanitizeEnvmap.lookup k else none := by
    intro k
    exact lookup_filter_keyPred sanitizeEnvmap
      (fun k => !((trimmedPassthrough pv lg).contains k)) k
  constructor
  · intro k cls v horig hmem
    rcases mem_sanitizer_foldl_cases (effectiveSanitizeMap pv lg) lg kvs [] _ hmem with
      h0 | ⟨_, hcond⟩
    · exact absurd h0 (List.not_mem_nil _)
    rcases hcond with hnone | ⟨hlg, hsome⟩
    · -- deleted from the map: the key is in the trimmed passthrough set
      rw [heff] at hnone
      by_cases hc : ((trimmedPassthrough pv lg).contains k) = true
      · have hk : k ∈ trimmedPassthrough pv lg := List.elem_iff.mp hc
        rcases (mem_trimmedPassthrough pv lg k).mp hk with huser | ⟨hlg, htok⟩
        · exact .inr huser
        · subst htok
          have : cls = true := by
            have : sanitizeEnvmap.lookup "VAULT_TOKEN" = some true := by decide
            rw [this] at horig
            exact (Option.some_inj.mp horig).symm
          exact .inl ⟨hlg, this⟩
      · rw [Bool.not_eq_true] at hc
        rw [hc] at hnone
        simp only [Bool.not_false, if_true] at hnone
        rw [horig] at hnone
        exact absurd hnone (Option.some_ne_none cls)
    · -- kept in the map with a true login class
      rw [heff] at hsome
      by_cases hc : ((trimmedPassthrough pv lg).contains k) = true
      · rw [hc] at hsome
        simp at hsome
      · rw [Bool.not_eq_true] at hc
        rw [hc] at hsome
        simp only [Bool.not_false, if_true] at hsome
        rw [horig] at hsome
        exact .inl ⟨hlg, Option.some_inj.mp hsome⟩
  · intro k v horig hkv
    have hnone : (effectiveSanitizeMap pv lg).lookup k = none := by
      rw [heff, horig]
      by_cases hc : ((trimmedPassthrough pv lg).contains k) = true
      · rw [hc]; rfl
      · rw [Bool.not_eq_true] at hc
        rw [hc]
        rfl
    exact sanitizer_retains_unlisted _ lg kvs k v hnone [] hkv

/-- Witness for `vaultSanitizer_spec`: with no passthrough and no login, a
non-Vault key injected by the injector is retained. -/
theorem vaultSanitizer_spec_witness :
    (⟨"MYSQL_PASSWORD", "pw"⟩ : Secret) ∈
      runInjections (effectiveSanitizeMap "" false) false [("MYSQL_PASSWORD", "pw")] :=
  (vaultSanitizer_spec "" false [("MYSQL_PASSWORD", "pw")]).2 "MYSQL_PASSWORD" "pw"
    (by decide) (List.mem_singleton.mpr rfl)

/-- Claim C7 as stated asserts that the token read from `VAULT_TOKEN_FILE`
is trimmed of its trailing newline.  `LoadConfig` stores the file content
verbatim: a file holding `"root\n"` yields the token `"root\n"`, not
`"root"`. -/
theorem loadConfigAuth_no_trim_counterexample :
    loadConfigAuth tokenFileEnvExample tokenFileReadExample =
      .ok { isLogin := false, token := "root\n", tokenFile := "/vault/.vault-token",
            role := "", authPath := "", authMethod := "" } ∧
    ("root\n" : String) ≠ "root" := by
  constructor
  · rfl
  · decide

/-- C7 (amended): whenever `VAULT_TOKEN_FILE` is set, `LoadConfig` reads
the named file and stores its content verbatim (no trailing-newline
trimming) as `Config.Token`; if the read fails, `LoadConfig` fails with a
configuration error naming the file. -/
theorem loadConfigAuth_tokenFile_spec (env : String → Option String)
    (readFile : String → Except String String) (f : String)
    (hf : env "VAULT_TOKEN_FILE" = some f) :
    (∀ c, readFile f = .ok c → ∃ cfg, loadConfigAuth env readFile = .ok cfg ∧
        cfg.token = c ∧ cfg.tokenFile = f) ∧
    (∀ e, readFile f = .error e →
        loadConfigAuth env readFile = .error ("failed to read token file " ++ f ++ ": " ++ e)) := by
  constructor
  · intro c hc
    have hres : loadConfigAuth env readFile =
        .ok { isLogin := ((env "VAULT_TOKEN").getD "" == "vault:login"), token := c,
              tokenFile := f, role := "", authPath := "", authMethod := "" } := by
      simp only [loadConfigAuth, hf, hc]
    exact ⟨_, hres, rfl, rfl⟩
  · intro e he
    simp only [loadConfigAuth, hf, he]

/-- Witness for `loadConfigAuth_tokenFile_spec` at the concrete example
environment and filesystem. -/
theorem loadConfigAuth_tokenFile_spec_witness :
    ∃ cfg, loadConfigAuth tokenFileEnvExample tokenFileReadExample = .ok cfg ∧
      cfg.token = "root\n" ∧ cfg.tokenFile = "/vault/.vault-token" :=
  (loadConfigAuth_tokenFile_spec tokenFileEnvExample tokenFileReadExample
    "/vault/.vault-token" rfl).1 "root\n" rfl

/-- C9: whenever the lifetime watcher reports a done event, the renewer's
action sequence is some renewal logs followed by — for a non-renewable
secret — a sleep of the original lease duration, then SIGTERM toward the
child, a hard 10-second timeout, SIGKILL, and the stop of that secret's
watcher. -/
theorem renewLoop_done_spec (r : Bool) (ld : Nat) (evs : List WatcherEvent)
    (hdone : ∃ b, WatcherEvent.doneEv b ∈ evs) :
    ∃ logs : List RenewerAction,
      (∀ a ∈ logs, ∃ d, a = .logRenewed d) ∧
      renewLoop r ld evs =
        logs ++ ((if r then [] else [.sleepFor ld]) ++
          [.sendSigterm, .waitSeconds 10, .sendSigkill, .stopWatcher]) := by
  induction evs with
  | nil =>
    rcases hdone with ⟨b, hb⟩
    exact absurd hb (List.not_mem_nil _)
  | cons ev rest ih =>
    cases ev with
    | renewed d =>
      have hrest : ∃ b, WatcherEvent.doneEv b ∈ rest := by
        rcases hdone with ⟨b, hb⟩
        rcases List.mem_cons.mp hb with h | h
        · exact absurd h (by simp)
        · exact ⟨b, h⟩
      rcases ih hrest with ⟨logs, hlogs, heq⟩
      refine ⟨.logRenewed d :: logs, ?_, ?_⟩
      · intro a ha
        rcases List.mem_cons.mp ha with h | h
        · exact ⟨d, h⟩
        · exact hlogs a h
      · rw [show renewLoop r ld (.renewed d :: rest) =
            .logRenewed d :: renewLoop r ld rest from rfl, heq]
        rfl
    | doneEv b =>
      exact ⟨[], by simp, rfl⟩

/-- Witness for `renewLoop_done_spec`: a non-renewable secret with a 7-second
lease, one renewal, then a done event. -/
theorem renewLoop_done_spec_witness :
    ∃ logs : List RenewerAction,
      (∀ a ∈ logs, ∃ d, a = .logRenewed d) ∧
      renewLoop false 7 [.renewed 5, .doneEv true] =
        logs ++ ([.sleepFor 7] ++
          [.sendSigterm, .waitSeconds 10, .sendSigkill, .stopWatcher]) :=
  renewLoop_done_spec false 7 [.renewed 5, .doneEv true] ⟨true, by simp⟩

/-- C10: `parseSecretValueFromSM` returns a non-JSON payload byte-for-byte
unchanged; for a JSON object with exactly one key/value pair it returns the
`json.Marshal` encoding of the sole value (a string value therefore comes
back wrapped in double quotes); a JSON object with more than one pair is
returned byte-for-byte unchanged. -/
theorem parseSecretValueFromSM_spec (bytes : String) :
    (parseSecretValueFromSM bytes none = .ok bytes) ∧
    (∀ k v, parseSecretValueFromSM bytes (some (.jobj [(k, v)])) = .ok (goJsonEncode v)) ∧
    (∀ s, goJsonEncode (.jstr s) = "\"" ++ goJsonEscape s ++ "\"") ∧
    (∀ fs, 1 < (dedupKeys fs).length →
      parseSecretValueFromSM bytes (some (.jobj fs)) = .ok bytes) := by
  refine ⟨rfl, fun k v => rfl, fun s => rfl, ?_⟩
  intro fs hlen
  show (match dedupKeys fs with
      | [(_, v)] => Except.ok (goJsonEncode v)
      | _ => Except.ok bytes) = Except.ok bytes
  rcases hd : dedupKeys fs with _ | ⟨kv, _ | ⟨kv', tl⟩⟩
  · rfl
  · rw [hd] at hlen
    simp at hlen
  · rfl

/-- Witness for `parseSecretValueFromSM_spec`: the payload
`{"key":"baz","other":"q"}` (two pairs) comes back unchanged. -/
theorem parseSecretValueFromSM_spec_witness :
    parseSecretValueFromSM "\x7b\"key\":\"baz\",\"other\":\"q\"\x7d"
      (some (.jobj [("key", .jstr "baz"), ("other", .jstr "q")])) =
      .ok "\x7b\"key\":\"baz\",\"other\":\"q\"\x7d" :=
  (parseSecretValueFromSM_spec "\x7b\"key\":\"baz\",\"other\":\"q\"\x7d").2.2.2
    [("key", .jstr "baz"), ("other", .jstr "q")] (by decide)

/-- Claim C8 as stated asserts every returned secret's key is one of the
names in the input list (Vault/Bao from-path aside); the Bitwarden loader
instead returns `secret.Key`, the key stored in Bitwarden.  With input
`BAR=bitwarden:<UUID>` and a stored secret whose key is `OTHER_KEY`, the
returned secret's key is `OTHER_KEY`, which is not an input name. -/
theorem bitwardenLoadSecrets_counterexample :
    bitwardenLoadSecrets "org-uuid" bwGetExample (.ok "[]")
      ["BAR=bitwarden:7c302b55-8bb0-4df0-b2f5-4d0a12f0e203"] =
      .ok [⟨"OTHER_KEY", "baz"⟩] ∧
    ¬ "OTHER_KEY" ∈ (["BAR=bitwarden:7c302b55-8bb0-4df0-b2f5-4d0a12f0e203"].map
      (fun p => (splitEq p).1)) := by
  constructor
  · rfl
  · decide

/-- C8 (amended): every secret returned by the Bitwarden loader comes from
some input entry `name=secretID`: for the organization-id sentinel the
destination key is `name`; otherwise it is the key stored in Bitwarden for
`secretID` (so it equals `BAR` exactly when the stored secret's key is
`BAR`, as in scenario S5). -/
theorem bitwardenLoadSecrets_keys (orgID : String)
    (getSecret : String → Except String BwRemoteSecret)
    (orgBundleJSON : Except String String) :
    ∀ (paths : List String) (out : List Secret),
      bitwardenLoadSecrets orgID getSecret orgBundleJSON paths = .ok out →
      ∀ s ∈ out, ∃ p ∈ paths,
        ((splitEq p).2 = orgID ∧ s.key = (splitEq p).1) ∨
        ((splitEq p).2 ≠ orgID ∧ getSecret (splitEq p).2 = .ok ⟨s.key, s.value⟩) := by
  have hstep_ok : ∀ path s, bitwardenStep orgID getSecret orgBundleJSON path = .ok s →
      ((splitEq path).2 = orgID ∧ s.key = (splitEq path).1) ∨
      ((splitEq path).2 ≠ orgID ∧ getSecret (splitEq path).2 = .ok ⟨s.key, s.value⟩) := by
    intro path s h
    by_cases hid : (splitEq path).2 = orgID
    · rcases hbundle : orgBundleJSON with e | js
      · simp [bitwardenStep, hid, hbundle] at h
      · simp only [bitwardenStep, hid, hbundle, if_true] at h
        refine .inl ⟨hid, ?_⟩
        rw [← Except.ok.inj h]
    · rcases hget : getSecret (splitEq path).2 with e | r
      · simp [bitwardenStep, hid, hget] at h
      · simp only [bitwardenStep, hid, hget, if_false] at h
        refine .inr ⟨hid, ?_⟩
        rw [← Except.ok.inj h]
  intro paths
  induction paths with
  | nil =>
    intro out hout s hs
    have : ([] : List Secret) = out := Except.ok.inj hout
    subst this
    exact absurd hs (List.not_mem_nil _)
  | cons path rest ih =>
    intro out hout s hs
    rcases hstep : bitwardenStep orgID getSecret orgBundleJSON path with e | s₀
    · simp only [bitwardenLoadSecrets, hstep] at hout
      exact absurd hout (by simp)
    · rcases hrest : bitwardenLoadSecrets orgID getSecret orgBundleJSON rest with e | ss
      · simp only [bitwardenLoadSecrets, hstep, hrest] at hout
        exact absurd hout (by simp)
      · simp only [bitwardenLoadSecrets, hstep, hrest] at hout
        have hout' : s₀ :: ss = out := Except.ok.inj hout
        rw [← hout'] at hs
        rcases List.mem_cons.mp hs with hhead | htail
        · subst hhead
          exact ⟨path, List.mem_cons_self _ _, hstep_ok path s hstep⟩
        · rcases ih ss hrest s htail with ⟨p, hp, hcase⟩
          exact ⟨p, List.mem_cons_of_mem _ hp, hcase⟩

/-- Witness for `bitwardenLoadSecrets_keys` at the concrete example SDK:
the returned key is the remote secret's own key. -/
theorem bitwardenLoadSecrets_keys_witness :
    ∃ p ∈ ["BAR=bitwarden:7c302b55-8bb0-4df0-b2f5-4d0a12f0e203"],
      ((splitEq p).2 = "org-uuid" ∧ ("OTHER_KEY" : String) = (splitEq p).1) ∨
      ((splitEq p).2 ≠ "org-uuid" ∧
        bwGetExample (splitEq p).2 = .ok ⟨"OTHER_KEY", "baz"⟩) :=
  bitwardenLoadSecrets_keys "org-uuid" bwGetExample (.ok "[]")
    ["BAR=bitwarden:7c302b55-8bb0-4df0-b2f5-4d0a12f0e203"]
    [⟨"OTHER_KEY", "baz"⟩] rfl ⟨"OTHER_KEY", "baz"⟩ (List.mem_singleton.mpr rfl)

/-! ### Lemmas about GetSecretReferences -/

/-- Lists split by a separator absent from both name parts are equal
component-wise. -/
theorem append_sep_inj (l1 : List Char) :
    ∀ (l2 r1 r2 : List Char), '=' ∉ l1 → '=' ∉ l2 →
      l1 ++ '=' :: r1 = l2 ++ '=' :: r2 → l1 = l2 ∧ r1 = r2 := by
  induction l1 with
  | nil =>
    intro l2 r1 r2 _ h2 h
    cases l2 with
    | nil => simpa using h
    | cons c l2' =>
      simp only [List.nil_append, List.cons_append, List.cons.injEq] at h
      exact absurd (List.mem_cons_self c l2') (by rw [← h.1] at h2 ⊢; exact h2)
  | cons c l1' ih =>
    intro l2 r1 r2 h1 h2 h
    cases l2 with
    | nil =>
      simp only [List.cons_append, List.nil_append, List.cons.injEq] at h
      exact absurd (List.mem_cons_self c l1') (by rw [h.1] at h1 ⊢; exact h1)
    | cons d l2' =>
      simp only [List.cons_append, List.cons.injEq] at h
      have h1' : '=' ∉ l1' := fun hc => h1 (List.mem_cons_of_mem c hc)
      have h2' : '=' ∉ l2' := fun hc => h2 (List.mem_cons_of_mem d hc)
      rcases ih l2' r1 r2 h1' h2' h.2 with ⟨he, hr⟩
      exact ⟨by rw [h.1, he], hr⟩

/-- A `name=value` entry determines name and value when neither name
contains `=` (environment names from `os.Environ`'s `SplitN` never do). -/
theorem entryString_inj (n1 v1 n2 v2 : String)
    (h1 : '=' ∉ n1.data) (h2 : '=' ∉ n2.data)
    (h : n1 ++ "=" ++ v1 = n2 ++ "=" ++ v2) : n1 = n2 ∧ v1 = v2 := by
  have hd : n1.data ++ '=' :: v1.data = n2.data ++ '=' :: v2.data := by
    have := congrArg String.data h
    simpa [String.data_append] using this
  rcases append_sep_inj n1.data n2.data v1.data v2.data h1 h2 hd with ⟨ha, hb⟩
  exact ⟨String.ext ha, String.ext hb⟩

/-- Occurrence count of an entry in one group after a Go map `append`. -/
theorem count_addRef (m : RefMap) (k v p e : String) :
    ((addRef m k v p).getD []).count e =
      ((m p).getD []).count e + (if p = k ∧ v = e then 1 else 0) := by
  by_cases hp : p = k
  · subst hp
    simp only [addRef, if_pos rfl, Option.getD_some, List.count_append, true_and]
    by_cases hv : v = e
    · simp [hv, List.count_singleton]
    · simp [List.count_singleton, hv]
  · simp [addRef, hp]

/-- Occurrence count of an entry in one group after classifying a single
environment entry against the factory table. -/
theorem count_classifyEntry (fs : List Factory) (name value p e : String) :
    ∀ m : RefMap,
      (((classifyEntry fs name value m) p).getD []).count e =
        ((m p).getD []).count e +
          (if name ++ "=" ++ value = e then
            fs.countP (fun f => f.providerType == p && f.validator value) else 0) := by
  induction fs with
  | nil =>
    intro m
    by_cases he : name ++ "=" ++ value = e <;> simp [classifyEntry, he]
  | cons f rest ih =>
    intro m
    have hstep : classifyEntry (f :: rest) name value m =
        classifyEntry rest name value
          (if f.validator value then addRef m f.providerType (name ++ "=" ++ value) else m) := rfl
    rw [hstep, ih]
    rcases hv : f.validator value with _ | _
    · have hcp : (f.providerType == p && f.validator value) = false := by
        rw [hv]; simp
      rw [List.countP_cons, hcp]
      simp
    · by_cases hp : f.providerType = p
      · subst hp
        rw [if_pos rfl, count_addRef, List.countP_cons]
        have hcp : (f.providerType == f.providerType && f.validator value) = true := by
          rw [hv]; simp
        rw [hcp]
        have h1 : (if (true : Bool) = true then (1 : Nat) else 0) = 1 := rfl
        rw [h1]
        by_cases he : name ++ "=" ++ value = e
        · rw [if_pos ⟨rfl, he⟩, if_pos he, if_pos he]
          omega
        · rw [if_neg (fun hc => he hc.2), if_neg he, if_neg he]
      · rw [if_pos rfl, count_addRef, List.countP_cons]
        have hcp : (f.providerType == p && f.validator value) = false := by
          rw [beq_eq_false_iff_ne.mpr hp]
          simp
        rw [hcp]
        have h0 : (if (false : Bool) = true then (1 : Nat) else 0) = 0 := rfl
        rw [h0]
        rw [if_neg (fun hc => hp hc.1.symm)]
        simp

/-- Occurrence count of an entry in one group after classifying the whole
environment snapshot. -/
theorem count_foldClassify (data : List (String × String)) (p e : String) :
    ∀ m : RefMap,
      (((data.foldl (fun m nv => classifyEntry factories nv.1 nv.2 m) m) p).getD []).count e =
        ((m p).getD []).count e +
          (data.map (fun nv => if nv.1 ++ "=" ++ nv.2 = e then
            factories.countP (fun f => f.providerType == p && f.validator nv.2) else 0)).sum := by
  induction data with
  | nil => intro m; simp
  | cons nv rest ih =>
    intro m
    have hstep : (nv :: rest).foldl (fun m nv => classifyEntry factories nv.1 nv.2 m) m =
        rest.foldl (fun m nv => classifyEntry factories nv.1 nv.2 m)
          (classifyEntry factories nv.1 nv.2 m) := rfl
    rw [hstep, ih, count_classifyEntry]
    simp only [List.map_cons, List.sum_cons]
    omega

/-- Inserting an empty group for an absent key never changes any group's
contents. -/
theorem getD_setGroup_empty (m : RefMap) (k : String) (hk : m k = none) (p : String) :
    ((setGroup m k [] p).getD []) = ((m p).getD []) := by
  by_cases hp : p = k
  · subst hp
    simp [setGroup, hk]
  · simp [setGroup, hp]

/-- `checkFromPath` only inserts empty groups, so every group's contents
are unchanged. -/
theorem getD_checkFromPath (environ : List (String × String)) (m : RefMap) (p : String) :
    ((checkFromPath environ m p).getD []) = ((m p).getD []) := by
  unfold checkFromPath
  by_cases h1 : ((m "vault").isNone && (environ.lookup "VAULT_FROM_PATH").isSome) = true
  · rw [if_pos h1]
    have hmv : m "vault" = none := Option.isNone_iff_eq_none.mp (Bool.and_eq_true_iff.mp h1).1
    by_cases h2 : (((setGroup m "vault" [] "bao").isNone) &&
        (environ.lookup "BAO_FROM_PATH").isSome) = true
    · rw [if_pos h2]
      have hmb : setGroup m "vault" [] "bao" = none :=
        Option.isNone_iff_eq_none.mp (Bool.and_eq_true_iff.mp h2).1
      rw [getD_setGroup_empty _ _ hmb p, getD_setGroup_empty _ _ hmv p]
    · rw [if_neg h2]
      exact getD_setGroup_empty _ _ hmv p
  · rw [if_neg h1]
    by_cases h2 : ((m "bao").isNone && (environ.lookup "BAO_FROM_PATH").isSome) = true
    · rw [if_pos h2]
      have hmb : m "bao" = none := Option.isNone_iff_eq_none.mp (Bool.and_eq_true_iff.mp h2).1
      exact getD_setGroup_empty _ _ hmb p
    · rw [if_neg h2]

/-- Summing per-entry contributions when exactly one list element
contributes. -/
theorem sum_single_contrib (a : String × String) (c : Nat)
    (g : (String × String) → Nat) :
    ∀ l : List (String × String), (∀ x ∈ l, g x = if x = a then c else 0) →
      l.Nodup → a ∈ l → (l.map g).sum = c := by
  intro l
  induction l with
  | nil => intro _ _ h; exact absurd h (List.not_mem_nil _)
  | cons x rest ih =>
    intro hg hnd hmem
    by_cases hx : x = a
    · subst hx
      have hnotin : x ∉ rest := (List.nodup_cons.mp hnd).1
      have hzero : ∀ y ∈ rest, g y = 0 := by
        intro y hy
        have hgy := hg y (List.mem_cons_of_mem x hy)
        have hya : ¬ y = x := fun h => hnotin (h ▸ hy)
        rwa [if_neg hya] at hgy
      have hz : (rest.map g).sum = 0 := by
        refine List.sum_eq_zero ?_
        intro n hn
        rcases List.mem_map.mp hn with ⟨y, hy, rfl⟩
        exact hzero y hy
      rw [List.map_cons, List.sum_cons, hg x (List.mem_cons_self x rest), if_pos rfl, hz]
      omega
    · have hmem' : a ∈ rest := by
        rcases List.mem_cons.mp hmem with h | h
        · exact absurd h.symm hx
        · exact h
      have hnd' : rest.Nodup := (List.nodup_cons.mp hnd).2
      have hg' : ∀ y ∈ rest, g y = if y = a then c else 0 :=
        fun y hy => hg y (List.mem_cons_of_mem x hy)
      rw [List.map_cons, List.sum_cons, hg x (List.mem_cons_self x rest), if_neg hx,
        ih hg' hnd' hmem']
      omega

/-- C4: for every environment entry `(name, value)` and every factory
whose validator accepts `value`, `GetSecretReferences` places the string
`name=value` in that provider's reference group exactly once; an entry
whose value matches no provider predicate appears in no group.  (The
hypotheses hold of any `os.Environ` snapshot: map keys are unique and
`SplitN(env, "=", 2)[0]` never contains `=`.) -/
theorem getSecretReferences_spec (data : List (String × String))
    (hnames : (data.map (fun nv => nv.1)).Nodup)
    (hnoeq : ∀ nv ∈ data, ¬ '=' ∈ nv.1.data) :
    ∀ name value, (name, value) ∈ data →
      (∀ f ∈ factories, f.validator value = true →
        ((getSecretReferences data f.providerType).getD []).count
          (name ++ "=" ++ value) = 1) ∧
      ((∀ f ∈ factories, f.validator value = false) →
        ∀ p, ((getSecretReferences data p).getD []).count (name ++ "=" ++ value) = 0) := by
  intro name value hmem
  have hbase : ∀ p, ((getSecretReferences data p).getD []).count (name ++ "=" ++ value) =
      (data.map (fun nv => if nv.1 ++ "=" ++ nv.2 = name ++ "=" ++ value then
        factories.countP (fun f => f.providerType == p && f.validator nv.2) else 0)).sum := by
    intro p
    unfold getSecretReferences
    rw [getD_checkFromPath, count_foldClassify]
    simp
  have hid : ∀ nv ∈ data, (nv.1 ++ "=" ++ nv.2 = name ++ "=" ++ value) ↔ nv = (name, value) := by
    intro nv hnv
    constructor
    · intro h
      rcases entryString_inj nv.1 nv.2 name value (hnoeq nv hnv) (hnoeq (name, value) hmem) h
        with ⟨h1, h2⟩
      rcases nv with ⟨n', v'⟩
      simp only at h1 h2
      rw [h1, h2]
    · rintro rfl
      rfl
  have hnodup : data.Nodup := List.Nodup.of_map _ hnames
  constructor
  · intro f hf hval
    rw [hbase f.providerType]
    have hx := sum_single_contrib (name, value)
      (factories.countP (fun g => g.providerType == f.providerType && g.validator value))
      (fun nv => if nv.1 ++ "=" ++ nv.2 = name ++ "=" ++ value then
        factories.countP (fun g => g.providerType == f.providerType && g.validator nv.2) else 0)
      data ?_ hnodup hmem
    · rw [hx]
      have hfmem : f ∈ factories := hf
      simp only [factories, List.mem_cons, List.not_mem_nil, or_false] at hfmem
      rcases hfmem with rfl | rfl | rfl | rfl | rfl | rfl <;>
        (dsimp only at hval; simp [factories, List.countP_cons, hval])
    · intro x hx'
      show (if x.1 ++ "=" ++ x.2 = name ++ "=" ++ value then
          factories.countP (fun g => g.providerType == f.providerType && g.validator x.2)
        else 0) =
        (if x = (name, value) then
          factories.countP (fun g => g.providerType == f.providerType && g.validator value)
        else 0)
      by_cases hxe : x.1 ++ "=" ++ x.2 = name ++ "=" ++ value
      · have hxa : x = (name, value) := (hid x hx').mp hxe
        rw [if_pos hxe, if_pos hxa, hxa]
      · rw [if_neg hxe, if_neg (fun hc => hxe ((hid x hx').mpr hc))]
  · intro hall p
    rw [hbase p]
    refine List.sum_eq_zero ?_
    intro n hn
    rcases List.mem_map.mp hn with ⟨nv, hnv, rfl⟩
    by_cases hxe : nv.1 ++ "=" ++ nv.2 = name ++ "=" ++ value
    · have hxa : nv = (name, value) := (hid nv hnv).mp hxe
      rw [if_pos hxe]
      refine List.countP_eq_zero.mpr ?_
      intro f hf
      have hv2 : nv.2 = value := by rw [hxa]
      rw [hv2, hall f hf]
      simp
    · rw [if_neg hxe]

/-- Witness for `getSecretReferences_spec`: `FOO=file:/tmp/x` lands in the
file group exactly once, and `PLAIN=hello` (matching no validator) is in
no group, e.g. not in Vault's. -/
theorem getSecretReferences_spec_witness :
    ((getSecretReferences [("FOO", "file:/tmp/x"), ("PLAIN", "hello")] "file").getD []).count
      ("FOO" ++ "=" ++ "file:/tmp/x") = 1 ∧
    ((getSecretReferences [("FOO", "file:/tmp/x"), ("PLAIN", "hello")] "vault").getD []).count
      ("PLAIN" ++ "=" ++ "hello") = 0 := by
  constructor
  · exact (getSecretReferences_spec [("FOO", "file:/tmp/x"), ("PLAIN", "hello")]
      (by decide) (by decide) "FOO" "file:/tmp/x" (by decide)).1
      ⟨"file", fileValid⟩ (List.mem_cons_self _ _) (by decide)
  · exact (getSecretReferences_spec [("FOO", "file:/tmp/x"), ("PLAIN", "hello")]
      (by decide) (by decide) "PLAIN" "hello" (by simp)).2
      (by intro f hf
          have hfmem : f ∈ factories := hf
          simp only [factories, List.mem_cons, List.not_mem_nil, or_false] at hfmem
          rcases hfmem with rfl | rfl | rfl | rfl | rfl | rfl <;> decide)
      "vault"

/-! ### Lemmas about the dispatcher workers -/

/-- A worker whose provider has a factory, whose creation succeeds, and
whose load fails publishes exactly the load-failure message. -/
theorem runWorker_load_err (create : String → Except String Unit)
    (load : String → List String → Except String (List Secret))
    (n : String) (ps : List String) (e : String)
    (hfac : factories.any (fun f => f.providerType == n) = true)
    (hcreate : create n = .ok ())
    (hload : load n ps = .error e) :
    runWorker create load n ps =
      .err ("failed to load secrets for provider " ++ n ++ ": " ++ e) := by
  have key : ∀ (fs : List Factory) (acc : List Secret),
      fs.any (fun f => f.providerType == n) = true →
      workerLoop create load n ps fs acc =
        .err ("failed to load secrets for provider " ++ n ++ ": " ++ e) := by
    intro fs
    induction fs with
    | nil => intro acc h; simp at h
    | cons f rest ih =>
      intro acc h
      by_cases hf : f.providerType = n
      · rw [show workerLoop create load n ps (f :: rest) acc =
            (if f.providerType = n then
              match create n with
              | .error e => .err ("failed to create provider " ++ n ++ ": " ++ e)
              | .ok _ =>
                match load n ps with
                | .error e => .err ("failed to load secrets for provider " ++ n ++ ": " ++ e)
                | .ok ss => workerLoop create load n ps rest (acc ++ ss)
            else workerLoop create load n ps rest acc) from rfl,
          if_pos hf, hcreate, hload]
      · rw [show workerLoop create load n ps (f :: rest) acc =
            (if f.providerType = n then
              match create n with
              | .error e => .err ("failed to create provider " ++ n ++ ": " ++ e)
              | .ok _ =>
                match load n ps with
                | .error e => .err ("failed to load secrets for provider " ++ n ++ ": " ++ e)
                | .ok ss => workerLoop create load n ps rest (acc ++ ss)
            else workerLoop create load n ps rest acc) from rfl,
          if_neg hf]
        have hfb : (f.providerType == n) = false := beq_eq_false_iff_ne.mpr hf
        rw [List.any_cons, hfb, Bool.false_or] at h
        exact ih acc h
  exact key factories [] hfac

/-- C3: if any scheduled provider with a registered factory fails to load,
the dispatcher — having run every scheduled worker to completion — returns
no secrets (`nil`), and the joined error contains the failing provider's
message (which embeds its id); indeed it contains such a message for every
failing provider, so no peer was cancelled. -/
theorem loadProviderSecrets_failure_isolation
    (create : String → Except String Unit)
    (load : String → List String → Except String (List Secret))
    (order : List (String × List String)) (n : String) (ps : List String) (e : String)
    (hmem : (n, ps) ∈ order)
    (hfac : factories.any (fun f => f.providerType == n) = true)
    (hcreate : create n = .ok ())
    (hload : load n ps = .error e) :
    (loadProviderSecrets create load order).1 = none ∧
    ("failed to load secrets for provider " ++ n ++ ": " ++ e) ∈
      (loadProviderSecrets create load order).2 ∧
    (∀ m qs e', (m, qs) ∈ order →
      factories.any (fun f => f.providerType == m) = true →
      create m = .ok () → load m qs = .error e' →
      ("failed to load secrets for provider " ++ m ++ ": " ++ e') ∈
        (loadProviderSecrets create load order).2) := by
  have hmsg : ∀ m qs e', (m, qs) ∈ order →
      factories.any (fun f => f.providerType == m) = true →
      create m = .ok () → load m qs = .error e' →
      ("failed to load secrets for provider " ++ m ++ ": " ++ e') ∈
        collectErrors (order.map (fun nv => runWorker create load nv.1 nv.2)) := by
    intro m qs e' hm hf hc hl
    refine List.mem_filterMap.mpr ⟨runWorker create load m qs, ?_, ?_⟩
    · exact List.mem_map.mpr ⟨(m, qs), hm, rfl⟩
    · rw [runWorker_load_err create load m qs e' hf hc hl]
  have hin := hmsg n ps e hmem hfac hcreate hload
  rcases herrs : collectErrors (order.map (fun nv => runWorker create load nv.1 nv.2)) with
    _ | ⟨e0, etl⟩
  · rw [herrs] at hin
    exact absurd hin (List.not_mem_nil _)
  · have hres : loadProviderSecrets create load order = (none, e0 :: etl) := by
      rw [show loadProviderSecrets create load order =
          (match collectErrors (order.map (fun nv => runWorker create load nv.1 nv.2)) with
          | [] => (some (collectSecrets (order.map (fun nv => runWorker create load nv.1 nv.2))), [])
          | es => (none, es)) from rfl, herrs]
    rw [hres]
    refine ⟨rfl, ?_, ?_⟩
    · rw [herrs] at hin
      exact hin
    · intro m qs e' hm hf hc hl
      have := hmsg m qs e' hm hf hc hl
      rw [herrs] at this
      exact this

/-- Witness for `loadProviderSecrets_failure_isolation`: the file provider
fails while gcp succeeds; the dispatcher returns no secrets and the file
provider's error. -/
theorem loadProviderSecrets_failure_isolation_witness :
    (loadProviderSecrets (fun _ => .ok ())
        (fun m _ => if m = "file" then .error "read failed" else .ok [⟨"G", "v"⟩])
        [("file", ["F=file:/tmp/x"]), ("gcp", ["G=gcp:secretmanager:projects/p/secrets/s"])]).1 =
      none ∧
    ("failed to load secrets for provider " ++ "file" ++ ": " ++ "read failed") ∈
      (loadProviderSecrets (fun _ => .ok ())
        (fun m _ => if m = "file" then .error "read failed" else .ok [⟨"G", "v"⟩])
        [("file", ["F=file:/tmp/x"]), ("gcp", ["G=gcp:secretmanager:projects/p/secrets/s"])]).2 := by
  have h := loadProviderSecrets_failure_isolation (fun _ => .ok ())
    (fun m _ => if m = "file" then .error "read failed" else .ok [⟨"G", "v"⟩])
    [("file", ["F=file:/tmp/x"]), ("gcp", ["G=gcp:secretmanager:projects/p/secrets/s"])]
    "file" ["F=file:/tmp/x"] "read failed"
    (by simp) (by decide) rfl rfl
  exact ⟨h.1, h.2.1⟩

/-- C5: when the provider-paths mapping contains a Vault group, the Vault
load is performed serially before the concurrent fan-out over the working
mapping (from which Vault has been removed): in every possible event order
of `LoadProviderSecrets`, Vault's `LoadSecrets` finishes strictly before
any Bao `LoadSecrets` (indeed before any fan-out load) starts. -/
theorem vault_before_bao (providerPaths : List (String × List String)) (σ : List LoadEv)
    (hvault : (providerPaths.lookup "vault").isSome = true)
    (hσ : IsInterleaving ((remainingAfterVault providerPaths).map (fun nv => nv.1)) σ) :
    ∀ i j : Nat,
      (dispatchTrace providerPaths σ).get? i = some (.finish "vault") →
      (dispatchTrace providerPaths σ).get? j = some (.start "bao") →
      i < j := by
  have htr : dispatchTrace providerPaths σ = .start "vault" :: .finish "vault" :: σ := by
    simp [dispatchTrace, hvault]
  have hqnv : ∀ q ∈ (remainingAfterVault providerPaths).map (fun nv => nv.1), q ≠ "vault" := by
    intro q hq
    rcases List.mem_map.mp hq with ⟨nv, hnv, rfl⟩
    have h2 := (List.mem_filter.mp hnv).2
    simpa using h2
  have hnoV : ∀ ev ∈ σ, ev ≠ LoadEv.finish "vault" := by
    intro ev hev hcontra
    rcases hσ.1 ev hev with ⟨q, hq, heq | heq⟩
    · rw [hcontra] at heq
      exact absurd heq (by simp)
    · rw [hcontra] at heq
      have : "vault" = q := LoadEv.finish.inj heq
      exact hqnv q hq this.symm
  intro i j hi hj
  rw [htr] at hi hj
  match i, hi with
  | 0, hi => simp at hi
  | 1, hi =>
    match j, hj with
    | 0, hj => simp at hj
    | 1, hj => simp at hj
    | j' + 2, hj => omega
  | i' + 2, hi =>
    have hmem : LoadEv.finish "vault" ∈ σ := List.get?_mem hi
    exact absurd rfl (hnoV _ hmem)

/-- Witness for `vault_before_bao`: a mapping with non-empty Vault and Bao
groups and the fan-out schedule that runs Bao; the trace is the serial
Vault phase followed by Bao's load, and position 1 (Vault finish) precedes
position 2 (Bao start). -/
theorem vault_before_bao_witness :
    dispatchTrace
        [("vault", ["A=vault:secret/data/a#f"]), ("bao", ["B=bao:secret/data/b#f"])]
        [.start "bao", .finish "bao"] =
      [.start "vault", .finish "vault", .start "bao", .finish "bao"] ∧
    (1 : Nat) < 2 := by
  constructor
  · decide
  · exact vault_before_bao
      [("vault", ["A=vault:secret/data/a#f"]), ("bao", ["B=bao:secret/data/b#f"])]
      [.start "bao", .finish "bao"] (by decide)
      (by constructor
          · decide
          · decide)
      1 2 (by decide) (by decide)

end SecretInit
